import Mathlib

/-!
Verification of the foxgeoip IP-filter middleware (Go).

Shallow embedding conventions:
- Go strings are modelled as lists of rune code points (`List Nat`).
  The source uses the ASCII range for country codes; Go's
  strings.ToUpper and strings.TrimSpace are embedded on that range
  (toUpperRune maps 97..122 to 65..90; isSpaceRune recognises the
  ASCII whitespace runes that unicode.IsSpace recognises).
- The Go map countryCodes (map to struct, i.e. a set of strings) is a
  Finset of rune lists; map insertion is Finset.insert, membership is
  decidable membership, and the nil map equals the empty map (both ∅).
- The geoip2 Reader is external to the repository; it is modelled as a
  function from an opaque IP to Except: an error on lookup failure, and
  a country code (the IsoCode field) on success.  An IP that is absent
  from the database yields a successful lookup with an empty IsoCode,
  which is the behaviour the source relies on.
- config keeps only the blacklist and whitelist fields; the remaining
  options (filters, client-IP strategy, log handler, block handler) do
  not touch those fields and are modelled by the identity option
  ConfigOpt.other.
-/

/-- A Go string, as the list of its rune code points. -/
abbrev GoStr := List Nat

/-- ASCII whitespace runes, the ASCII fragment of Go's unicode.IsSpace
used by strings.TrimSpace: space, tab, newline, vertical tab, form
feed, carriage return. -/
def isSpaceRune (c : Nat) : Bool :=
  c = 32 || c = 9 || c = 10 || c = 11 || c = 12 || c = 13

/-- Go's strings.ToUpper on a single rune, restricted to ASCII:
a lowercase letter (97..122) is mapped 32 down to its uppercase form. -/
def toUpperRune (c : Nat) : Nat :=
  if 97 ≤ c ∧ c ≤ 122 then c - 32 else c

/-- Go's strings.ToUpper: uppercase every rune. -/
def toUpper (s : GoStr) : GoStr := s.map toUpperRune

/-- Go's strings.TrimSpace: drop whitespace runes from both ends. -/
def trimSpace (s : GoStr) : GoStr :=
  ((s.dropWhile isSpaceRune).reverse.dropWhile isSpaceRune).reverse

/-- The countryCodes type of the source: a set of country-code strings
(in Go, a map from string to the empty struct). -/
abbrev countryCodes := Finset GoStr

/-- Source method countryCodes.has: map membership of the given code,
exactly as looked up — the input code is not normalized here. -/
def countryCodes.has (c : countryCodes) (code : GoStr) : Bool :=
  decide (code ∈ c)

/-- Source function normalizeCodes: iterate over the configured codes,
skip a code that is the empty string, and insert the uppercased,
trimmed form of every other code into the set (inserting an element
already present leaves a Go map unchanged, as it does a Finset).
The nil map returned for an empty input list is the empty set. -/
def normalizeCodes (codes : List GoStr) : countryCodes :=
  codes.foldl
    (fun acc code =>
      if code = [] then acc
      else insert (toUpper (trimSpace code)) acc)
    ∅

/-- The IPFilter structure, restricted to the fields the allow/deny
decision reads: the configured set and whether it is a whitelist. -/
structure IPFilter where
  countryCodes : Finset GoStr
  isWhitelist : Bool
deriving DecidableEq

/-- Opaque IP addresses. -/
abbrev IP := Nat

/-- The external geoip2 reader: Country(ip) yields either a lookup
error or the country IsoCode; an IP absent from the database yields a
successful lookup with the empty IsoCode. -/
abbrev Reader := IP → Except String GoStr

/-- Source method IPFilter.allowed: look the IP up; propagate a lookup
error; an empty country code defaults to not-in-the-list; otherwise
test set membership of the code exactly as returned by the reader. -/
def IPFilter.allowed (r : Reader) (codes : Finset GoStr) (ip : IP) :
    Except String (Bool × GoStr) :=
  match r ip with
  | .error e => .error e
  | .ok code =>
    if code.length = 0 then .ok (false, code)
    else .ok (countryCodes.has codes code, code)

/-- Source method IPFilter.Allowed: run the inner membership check and
compare its boolean against isWhitelist (member of a whitelist or
non-member of a blacklist is allowed). -/
def IPFilter.Allowed (r : Reader) (f : IPFilter) (ip : IP) :
    Except String (Bool × GoStr) :=
  match IPFilter.allowed r f.countryCodes ip with
  | .error e => .error e
  | .ok (allowed, code) => .ok (allowed == f.isWhitelist, code)

/-- The config fields the list options touch. -/
structure Config where
  blacklist : List GoStr
  whitelist : List GoStr
deriving DecidableEq

/-- defaultConfig: both lists start empty (nil). -/
def defaultConfig : Config := { blacklist := [], whitelist := [] }

/-- Source option WithBlacklistedCountries: clear the whitelist and
append the given codes to the blacklist. -/
def WithBlacklistedCountries (codes : List GoStr) (c : Config) : Config :=
  { c with whitelist := [], blacklist := c.blacklist ++ codes }

/-- Source option WithWhitelistedCountries: clear the blacklist and
append the given codes to the whitelist. -/
def WithWhitelistedCountries (codes : List GoStr) (c : Config) : Config :=
  { c with blacklist := [], whitelist := c.whitelist ++ codes }

/-- A configuration option: one of the two list options, or any of the
other options (filters, strategy, log handler, block handler), which
leave the blacklist and whitelist fields unchanged. -/
inductive ConfigOpt where
  | blacklisted (codes : List GoStr)
  | whitelisted (codes : List GoStr)
  | other
deriving DecidableEq

/-- Apply one option to the config, as Option.apply does. -/
def ConfigOpt.apply (c : Config) (o : ConfigOpt) : Config :=
  match o with
  | .blacklisted codes => WithBlacklistedCountries codes c
  | .whitelisted codes => WithWhitelistedCountries codes c
  | .other => c

/-- Source function New: fold the options over the default config;
if the normalized whitelist is non-empty the filter is a whitelist on
that set, otherwise it is a (possibly empty) blacklist on the
normalized blacklist. -/
def New (opts : List ConfigOpt) : IPFilter :=
  let cfg := opts.foldl ConfigOpt.apply defaultConfig
  let whitelist := normalizeCodes cfg.whitelist
  if 0 < whitelist.card then
    { countryCodes := whitelist, isWhitelist := true }
  else
    { countryCodes := normalizeCodes cfg.blacklist, isWhitelist := false }

/-! ### Basic computation lemmas -/

/-- New with its let bindings expanded. -/
theorem New_eq (opts : List ConfigOpt) :
    New opts =
      if 0 < (normalizeCodes
          ((opts.foldl ConfigOpt.apply defaultConfig).whitelist)).card then
        { countryCodes := normalizeCodes
            ((opts.foldl ConfigOpt.apply defaultConfig).whitelist),
          isWhitelist := true }
      else
        { countryCodes := normalizeCodes
            ((opts.foldl ConfigOpt.apply defaultConfig).blacklist),
          isWhitelist := false } := rfl

/-- Membership in the fold that builds the normalized set. -/
theorem mem_normalizeCodes_foldl (codes : List GoStr) (acc : Finset GoStr)
    (x : GoStr) :
    (x ∈ codes.foldl
      (fun acc code =>
        if code = [] then acc
        else insert (toUpper (trimSpace code)) acc)
      acc) ↔
    (x ∈ acc ∨ ∃ c ∈ codes, c ≠ [] ∧ x = toUpper (trimSpace c)) := by
  induction codes generalizing acc with
  | nil => simp
  | cons a l ih =>
    by_cases ha : a = []
    · simp only [List.foldl_cons, ha, if_pos rfl, ih]
      constructor
      · rintro (h | ⟨c, hc, hne, hx⟩)
        · exact Or.inl h
        · exact Or.inr ⟨c, List.mem_cons_of_mem _ hc, hne, hx⟩
      · rintro (h | ⟨c, hc, hne, hx⟩)
        · exact Or.inl h
        · rcases List.mem_cons.1 hc with rfl | hc
          · exact absurd rfl hne
          · exact Or.inr ⟨c, hc, hne, hx⟩
    · simp only [List.foldl_cons, if_neg ha, ih, Finset.mem_insert]
      constructor
      · rintro ((hx | h) | ⟨c, hc, hne, hx⟩)
        · exact Or.inr ⟨a, List.mem_cons_self a l, ha, hx⟩
        · exact Or.inl h
        · exact Or.inr ⟨c, List.mem_cons_of_mem _ hc, hne, hx⟩
      · rintro (h | ⟨c, hc, hne, hx⟩)
        · exact Or.inl (Or.inr h)
        · rcases List.mem_cons.1 hc with rfl | hc
          · exact Or.inl (Or.inl hx)
          · exact Or.inr ⟨c, hc, hne, hx⟩

/-- Membership in the normalized set: exactly the normalizations of the
non-empty configured codes. -/
theorem mem_normalizeCodes (codes : List GoStr) (x : GoStr) :
    x ∈ normalizeCodes codes ↔
    ∃ c ∈ codes, c ≠ [] ∧ x = toUpper (trimSpace c) := by
  unfold normalizeCodes
  rw [mem_normalizeCodes_foldl]
  simp

theorem normalizeCodes_nil : normalizeCodes [] = ∅ := rfl

/-- New applied to a single whitelist option with non-empty
normalization builds a whitelist filter on that normalization. -/
theorem New_whitelisted (wl : List GoStr)
    (h : 0 < (normalizeCodes wl).card) :
    New [ConfigOpt.whitelisted wl] =
      { countryCodes := normalizeCodes wl, isWhitelist := true } := by
  simp only [New, List.foldl_cons, List.foldl_nil, ConfigOpt.apply,
    WithWhitelistedCountries, defaultConfig, List.nil_append]
  rw [if_pos h]

/-- New applied to a single blacklist option builds a blacklist filter
on the normalization of the given codes. -/
theorem New_blacklisted (bl : List GoStr) :
    New [ConfigOpt.blacklisted bl] =
      { countryCodes := normalizeCodes bl, isWhitelist := false } := by
  simp only [New, List.foldl_cons, List.foldl_nil, ConfigOpt.apply,
    WithBlacklistedCountries, defaultConfig, List.nil_append]
  rw [if_neg]
  simp [normalizeCodes_nil]

/-- New with no options builds the unrestricted filter. -/
theorem New_nil : New [] = { countryCodes := ∅, isWhitelist := false } := by
  simp [New, defaultConfig, normalizeCodes_nil]

/-- Allowed on a successful lookup with a non-empty code reduces to
comparing raw membership with the filter polarity. -/
theorem Allowed_ok (f : IPFilter) (r : Reader) (ip : IP) (c : GoStr)
    (hr : r ip = .ok c) (hc : c ≠ []) :
    IPFilter.Allowed r f ip =
      .ok (countryCodes.has f.countryCodes c == f.isWhitelist, c) := by
  unfold IPFilter.Allowed IPFilter.allowed
  rw [hr]
  have : ¬ c.length = 0 := by
    simpa [List.length_eq_zero] using hc
  simp [this]

/-- Allowed on a successful lookup with an empty code returns the
complement of the whitelist flag. -/
theorem Allowed_empty_code (f : IPFilter) (r : Reader) (ip : IP)
    (hr : r ip = .ok []) :
    IPFilter.Allowed r f ip = .ok (!f.isWhitelist, []) := by
  unfold IPFilter.Allowed IPFilter.allowed
  rw [hr]
  cases f.isWhitelist <;> simp

/-! ### Claim theorems -/

/-- C1: For every IP whose lookup succeeds with a non-empty country
code c and a filter configured as a whitelist (a whitelist option whose
codes normalize to a non-empty set), Allowed returns allowed true
exactly when c is a member of the normalized whitelist set, and the
looked-up code alongside. -/
theorem C1_whitelist_allowed (wl : List GoStr) (r : Reader) (ip : IP)
    (c : GoStr) (hwl : 0 < (normalizeCodes wl).card)
    (hr : r ip = .ok c) (hc : c ≠ []) :
    IPFilter.Allowed r (New [ConfigOpt.whitelisted wl]) ip =
      .ok (decide (c ∈ normalizeCodes wl), c) := by
  rw [New_whitelisted wl hwl, Allowed_ok _ r ip c hr hc]
  simp [countryCodes.has]

/-- C1 witness: whitelist of the single code CH (runes 67, 72); a
lookup resolving to CH is allowed, one resolving to US (85, 83) is
denied. -/
theorem C1_whitelist_allowed_witness :
    0 < (normalizeCodes [[67, 72]]).card ∧
    IPFilter.Allowed (fun _ => .ok [67, 72])
      (New [ConfigOpt.whitelisted [[67, 72]]]) 0 = .ok (true, [67, 72]) ∧
    IPFilter.Allowed (fun _ => .ok [85, 83])
      (New [ConfigOpt.whitelisted [[67, 72]]]) 0 = .ok (false, [85, 83]) := by
  refine ⟨by decide, ?_, ?_⟩
  · have := C1_whitelist_allowed [[67, 72]] (fun _ => .ok [67, 72]) 0
      [67, 72] (by decide) rfl (by decide)
    rw [this]
    rfl
  · have := C1_whitelist_allowed [[67, 72]] (fun _ => .ok [85, 83]) 0
      [85, 83] (by decide) rfl (by decide)
    rw [this]
    rfl

/-- C2: For every IP whose lookup succeeds with a non-empty country
code c and a filter configured as a blacklist, Allowed returns allowed
false exactly when c is a member of the normalized blacklist set. -/
theorem C2_blacklist_allowed (bl : List GoStr) (r : Reader) (ip : IP)
    (c : GoStr) (hr : r ip = .ok c) (hc : c ≠ []) :
    IPFilter.Allowed r (New [ConfigOpt.blacklisted bl]) ip =
      .ok (!decide (c ∈ normalizeCodes bl), c) := by
  rw [New_blacklisted bl, Allowed_ok _ r ip c hr hc]
  simp only [countryCodes.has]
  cases h : decide (c ∈ normalizeCodes bl) <;> simp_all

/-- C2 witness: blacklist of the single code CH; a lookup resolving to
CH is denied, one resolving to US is allowed. -/
theorem C2_blacklist_allowed_witness :
    IPFilter.Allowed (fun _ => .ok [67, 72])
      (New [ConfigOpt.blacklisted [[67, 72]]]) 0 = .ok (false, [67, 72]) ∧
    IPFilter.Allowed (fun _ => .ok [85, 83])
      (New [ConfigOpt.blacklisted [[67, 72]]]) 0 = .ok (true, [85, 83]) := by
  constructor
  · have := C2_blacklist_allowed [[67, 72]] (fun _ => .ok [67, 72]) 0
      [67, 72] rfl (by decide)
    rw [this]
    rfl
  · have := C2_blacklist_allowed [[67, 72]] (fun _ => .ok [85, 83]) 0
      [85, 83] rfl (by decide)
    rw [this]
    rfl

/-- C3: For every IP whose lookup succeeds with an empty country code,
Allowed returns allowed false with the empty code under a whitelist
filter, and allowed true with the empty code under a blacklist filter
and under the unrestricted filter. -/
theorem C3_empty_code (wl bl : List GoStr) (r : Reader) (ip : IP)
    (hwl : 0 < (normalizeCodes wl).card) (hr : r ip = .ok []) :
    IPFilter.Allowed r (New [ConfigOpt.whitelisted wl]) ip = .ok (false, []) ∧
    IPFilter.Allowed r (New [ConfigOpt.blacklisted bl]) ip = .ok (true, []) ∧
    IPFilter.Allowed r (New []) ip = .ok (true, []) := by
  refine ⟨?_, ?_, ?_⟩
  · rw [New_whitelisted wl hwl, Allowed_empty_code _ r ip hr]
    rfl
  · rw [New_blacklisted bl, Allowed_empty_code _ r ip hr]
    rfl
  · rw [New_nil, Allowed_empty_code _ r ip hr]
    rfl

/-- C3 witness: with whitelist CH, blacklist CH and a reader that finds
no country, the three decisions are deny, allow, allow. -/
theorem C3_empty_code_witness :
    IPFilter.Allowed (fun _ => .ok [])
      (New [ConfigOpt.whitelisted [[67, 72]]]) 0 = .ok (false, []) ∧
    IPFilter.Allowed (fun _ => .ok [])
      (New [ConfigOpt.blacklisted [[67, 72]]]) 0 = .ok (true, []) ∧
    IPFilter.Allowed (fun _ => .ok []) (New []) 0 = .ok (true, []) :=
  C3_empty_code [[67, 72]] [[67, 72]] (fun _ => .ok []) 0 (by decide) rfl

/-- C9: For a filter constructed with no whitelist and no blacklist
options (only options that leave both lists alone), Allowed returns
allowed true for every IP whose lookup succeeds, whatever the code. -/
theorem C9_unrestricted (opts : List ConfigOpt) (r : Reader) (ip : IP)
    (c : GoStr) (hopts : ∀ o ∈ opts, o = ConfigOpt.other)
    (hr : r ip = .ok c) :
    IPFilter.Allowed r (New opts) ip = .ok (true, c) := by
  have hfold : opts.foldl ConfigOpt.apply defaultConfig = defaultConfig := by
    induction opts with
    | nil => rfl
    | cons o l ih =>
      have ho : o = ConfigOpt.other := hopts o (List.mem_cons_self o l)
      rw [List.foldl_cons, ho]
      exact ih fun o' h => hopts o' (List.mem_cons_of_mem _ h)
  have hnew : New opts = { countryCodes := ∅, isWhitelist := false } := by
    unfold New
    rw [hfold]
    simp [defaultConfig, normalizeCodes_nil]
  rw [hnew]
  by_cases hc : c = []
  · subst hc
    exact Allowed_empty_code _ r ip hr
  · rw [Allowed_ok _ r ip c hr hc]
    simp [countryCodes.has]

/-- C9 witness: a filter built from one non-list option allows a lookup
resolving to US. -/
theorem C9_unrestricted_witness :
    IPFilter.Allowed (fun _ => .ok [85, 83])
      (New [ConfigOpt.other]) 0 = .ok (true, [85, 83]) :=
  C9_unrestricted [ConfigOpt.other] (fun _ => .ok [85, 83]) 0 [85, 83]
    (by intro o h; simpa using h) rfl

/-! ### Normalization lemmas: toUpper and trimSpace -/

/-- Uppercasing a rune does not change whether it is whitespace. -/
theorem isSpaceRune_toUpperRune (c : Nat) :
    isSpaceRune (toUpperRune c) = isSpaceRune c := by
  unfold toUpperRune
  split
  case isTrue h =>
    have h1 : isSpaceRune (c - 32) = false := by
      unfold isSpaceRune
      simp only [Bool.or_eq_false_iff, decide_eq_false_iff_not]
      omega
    have h2 : isSpaceRune c = false := by
      unfold isSpaceRune
      simp only [Bool.or_eq_false_iff, decide_eq_false_iff_not]
      omega
    rw [h1, h2]
  case isFalse h => rfl

/-- Uppercasing a rune is idempotent. -/
theorem toUpperRune_idem (c : Nat) :
    toUpperRune (toUpperRune c) = toUpperRune c := by
  unfold toUpperRune
  by_cases h : 97 ≤ c ∧ c ≤ 122
  · rw [if_pos h, if_neg (by omega)]
  · rw [if_neg h, if_neg h]

/-- Uppercasing a string is idempotent. -/
theorem toUpper_toUpper (s : GoStr) : toUpper (toUpper s) = toUpper s := by
  unfold toUpper
  rw [List.map_map]
  congr 1
  funext c
  exact toUpperRune_idem c

/-- Trimming commutes with uppercasing. -/
theorem trimSpace_toUpper (s : GoStr) :
    trimSpace (toUpper s) = toUpper (trimSpace s) := by
  have hp : (isSpaceRune ∘ toUpperRune) = isSpaceRune :=
    funext isSpaceRune_toUpperRune
  unfold trimSpace toUpper
  rw [List.dropWhile_map, hp, ← List.map_reverse, List.dropWhile_map, hp,
    ← List.map_reverse]

/-- Dropping a prefix by a predicate is idempotent. -/
theorem dropWhile_dropWhile {α : Type} (p : α → Bool) (l : List α) :
    (l.dropWhile p).dropWhile p = l.dropWhile p := by
  induction l with
  | nil => rfl
  | cons a t ih =>
    by_cases h : p a
    · simp [List.dropWhile_cons, h, ih]
    · simp [List.dropWhile_cons, h]

/-- The head of a dropWhile result does not satisfy the predicate. -/
theorem head?_dropWhile {α : Type} (p : α → Bool) (l : List α) (x : α)
    (h : (l.dropWhile p).head? = some x) : p x = false := by
  induction l with
  | nil => simp at h
  | cons a t ih =>
    by_cases ha : p a
    · rw [List.dropWhile_cons_of_pos ha] at h
      exact ih h
    · rw [List.dropWhile_cons_of_neg ha] at h
      simp at h
      simp at ha
      rw [← h]
      exact ha

/-- A list whose head does not satisfy the predicate is unchanged by
dropWhile. -/
theorem dropWhile_eq_self {α : Type} (p : α → Bool) (l : List α)
    (h : ∀ x, l.head? = some x → p x = false) : l.dropWhile p = l := by
  cases l with
  | nil => rfl
  | cons a t =>
    rw [List.dropWhile_cons_of_neg]
    simp [h a rfl]

/-- dropWhile keeps the last element when the result is non-empty. -/
theorem getLast?_dropWhile {α : Type} (p : α → Bool) (l : List α)
    (h : l.dropWhile p ≠ []) :
    (l.dropWhile p).getLast? = l.getLast? := by
  conv_rhs => rw [← List.takeWhile_append_dropWhile (p := p) (l := l)]
  rw [List.getLast?_append_of_ne_nil _ h]

/-- Trimming a string is idempotent. -/
theorem trimSpace_trimSpace (s : GoStr) :
    trimSpace (trimSpace s) = trimSpace s := by
  unfold trimSpace
  set u := s.dropWhile isSpaceRune with hu
  set v := u.reverse.dropWhile isSpaceRune with hv
  by_cases hvnil : v = []
  · rw [hvnil]
    rfl
  · have hunil : u ≠ [] := by
      intro h
      rw [h] at hv
      simp at hv
      exact hvnil hv
    have hdrop1 : v.reverse.dropWhile isSpaceRune = v.reverse := by
      apply dropWhile_eq_self
      intro x hx
      rw [List.head?_reverse] at hx
      rw [getLast?_dropWhile _ _ hvnil, List.getLast?_reverse] at hx
      have : (s.dropWhile isSpaceRune).head? = some x := hx
      exact head?_dropWhile _ _ _ this
    rw [hdrop1, List.reverse_reverse, hv, dropWhile_dropWhile]

/-- The normalization of a code is a fixed point of normalization. -/
theorem normalized_fixpoint (c : GoStr) :
    toUpper (trimSpace (toUpper (trimSpace c))) = toUpper (trimSpace c) := by
  rw [trimSpace_toUpper, trimSpace_trimSpace, toUpper_toUpper]

/-- A normalized member is already trimmed. -/
theorem trimSpace_normalized (c : GoStr) :
    trimSpace (toUpper (trimSpace c)) = toUpper (trimSpace c) := by
  rw [trimSpace_toUpper, trimSpace_trimSpace]

/-- C5 counterexample: the configured code consisting of a single space
(rune 32) is non-empty, so it is not skipped; trimming makes it the
empty string, which is inserted — the claim that a code trimming to the
empty string is never added is false. -/
theorem C5_counterexample : [] ∈ normalizeCodes [[32]] := by decide

/-- C5 (amended): every member of the normalized set is uppercase and
trimmed; the set is exactly the normalizations of the non-empty
configured codes, so a configured code that is the empty string is
never added; but the empty string is a member exactly when some
non-empty configured code trims to the empty string. -/
theorem C5_normalizeCodes_members (codes : List GoStr) :
    (∀ x ∈ normalizeCodes codes, toUpper x = x ∧ trimSpace x = x) ∧
    (∀ x, x ∈ normalizeCodes codes ↔
      ∃ c ∈ codes, c ≠ [] ∧ x = toUpper (trimSpace c)) ∧
    ([] ∈ normalizeCodes codes ↔
      ∃ c ∈ codes, c ≠ [] ∧ trimSpace c = []) := by
  refine ⟨?_, fun x => mem_normalizeCodes codes x, ?_⟩
  · intro x hx
    rcases (mem_normalizeCodes codes x).1 hx with ⟨c, _, _, rfl⟩
    constructor
    · rw [← toUpper_toUpper (trimSpace c), toUpper_toUpper]
    · exact trimSpace_normalized c
  · rw [mem_normalizeCodes]
    constructor
    · rintro ⟨c, hc, hne, hx⟩
      refine ⟨c, hc, hne, ?_⟩
      have : toUpper (trimSpace c) = [] := hx.symm
      unfold toUpper at this
      exact List.map_eq_nil_iff.1 this
    · rintro ⟨c, hc, hne, ht⟩
      exact ⟨c, hc, hne, by rw [ht]; rfl⟩

/-- C5 witness: normalizing the list with the single code " au "
(space, a, u, space) produces the member AU, which is uppercase and
trimmed. -/
theorem C5_normalizeCodes_members_witness :
    toUpper [65, 85] = [65, 85] ∧ trimSpace [65, 85] = [65, 85] :=
  (C5_normalizeCodes_members [[32, 97, 117, 32]]).1 [65, 85] (by decide)

/-- C6 counterexample: normalizing the list whose one code is a single
space yields the set containing only the empty string; normalizing
that set's member list (the one-element list containing the empty
string) yields the empty set, not the same set — normalization is not
idempotent as claimed. -/
theorem C6_counterexample :
    normalizeCodes [[32]] = {([] : GoStr)} ∧
    normalizeCodes [([] : GoStr)] = ∅ ∧
    ({([] : GoStr)} : Finset GoStr) ≠ ∅ := by
  refine ⟨by decide, by decide, by decide⟩

/-- C6 (amended): normalization is idempotent provided the first
normalization has no empty-string member (no configured code is
non-empty whitespace): renormalizing any enumeration of the produced
set yields the same set. -/
theorem C6_normalize_idem (codes l : List GoStr)
    (hl : l.toFinset = normalizeCodes codes)
    (hne : [] ∉ normalizeCodes codes) :
    normalizeCodes l = normalizeCodes codes := by
  apply Finset.ext
  intro x
  rw [mem_normalizeCodes]
  constructor
  · rintro ⟨c, hc, hcne, rfl⟩
    have hcs : c ∈ normalizeCodes codes := by
      rw [← hl]
      exact List.mem_toFinset.2 hc
    rcases (mem_normalizeCodes codes c).1 hcs with ⟨d, _, _, rfl⟩
    rw [normalized_fixpoint]
    exact hcs
  · intro hx
    have hxl : x ∈ l := List.mem_toFinset.1 (hl ▸ hx)
    have hxe : x ≠ [] := fun h => hne (h ▸ hx)
    refine ⟨x, hxl, hxe, ?_⟩
    rcases (mem_normalizeCodes codes x).1 hx with ⟨d, _, _, rfl⟩
    rw [normalized_fixpoint]

/-- C6 witness: the set produced from the single code au (lowercase)
is enumerated by the one-element list AU; renormalizing it yields the
same set. -/
theorem C6_normalize_idem_witness :
    ([[65, 85]] : List GoStr).toFinset = normalizeCodes [[97, 117]] ∧
    normalizeCodes [[65, 85]] = normalizeCodes [[97, 117]] :=
  ⟨by decide, C6_normalize_idem [[97, 117]] [[65, 85]] (by decide) (by decide)⟩

/-- C4 counterexample: with whitelist member AU (runes 65, 85), a
lookup resolving to the lowercase au (runes 97, 117) is denied while a
lookup resolving to AU is allowed — the membership test does not
normalize the resolved code, so the decision is not casing-invariant as
claimed. -/
theorem C4_counterexample :
    IPFilter.Allowed (fun _ => .ok [97, 117])
      (New [ConfigOpt.whitelisted [[65, 85]]]) 0 = .ok (false, [97, 117]) ∧
    IPFilter.Allowed (fun _ => .ok [65, 85])
      (New [ConfigOpt.whitelisted [[65, 85]]]) 0 = .ok (true, [65, 85]) := by
  constructor <;> rfl

/-- C4 (amended): the membership test compares the resolved country
code exactly as the reader returned it, with no normalization; only
the configured codes are normalized, at construction.  Allowed on a
successful lookup with a non-empty code is the raw membership of that
code compared against the whitelist flag. -/
theorem C4_raw_membership (f : IPFilter) (r : Reader) (ip : IP)
    (c : GoStr) (hr : r ip = .ok c) (hc : c ≠ []) :
    IPFilter.Allowed r f ip =
      .ok (countryCodes.has f.countryCodes c == f.isWhitelist, c) :=
  Allowed_ok f r ip c hr hc

/-- C4 witness: the raw-membership reduction evaluated on a whitelist
filter on AU and a reader resolving to lowercase au. -/
theorem C4_raw_membership_witness :
    IPFilter.Allowed (fun _ => .ok [97, 117])
      { countryCodes := {[65, 85]}, isWhitelist := true } 0 =
      .ok (false, [97, 117]) := by
  have := C4_raw_membership { countryCodes := {[65, 85]}, isWhitelist := true }
    (fun _ => .ok [97, 117]) 0 [97, 117] rfl (by decide)
  rw [this]
  rfl

/-- Folding the options over two configs with the same blacklist gives
the same result once a blacklist option occurs: that option clears the
whitelist, the only field in which the configs may differ. -/
theorem foldl_eq_of_blacklisted_mem (post : List ConfigOpt) :
    ∀ c₁ c₂ : Config, c₁.blacklist = c₂.blacklist →
    (∃ b, ConfigOpt.blacklisted b ∈ post) →
    post.foldl ConfigOpt.apply c₁ = post.foldl ConfigOpt.apply c₂ := by
  induction post with
  | nil =>
    rintro c₁ c₂ hbl ⟨b, hb⟩
    exact absurd hb (List.not_mem_nil _)
  | cons o rest ih =>
    rintro c₁ c₂ hbl ⟨b, hb⟩
    cases o with
    | blacklisted codes =>
      simp only [List.foldl_cons, ConfigOpt.apply, WithBlacklistedCountries]
      rw [hbl]
    | whitelisted codes =>
      simp only [List.foldl_cons, ConfigOpt.apply, WithWhitelistedCountries]
      refine ih _ _ rfl ?_
      rcases List.mem_cons.1 hb with h | h
      · exact absurd h (by simp)
      · exact ⟨b, h⟩
    | other =>
      simp only [List.foldl_cons, ConfigOpt.apply]
      refine ih _ _ hbl ?_
      rcases List.mem_cons.1 hb with h | h
      · exact absurd h (by simp)
      · exact ⟨b, h⟩

/-- Folding the options over two configs with the same whitelist gives
the same result once a whitelist option occurs. -/
theorem foldl_eq_of_whitelisted_mem (post : List ConfigOpt) :
    ∀ c₁ c₂ : Config, c₁.whitelist = c₂.whitelist →
    (∃ v, ConfigOpt.whitelisted v ∈ post) →
    post.foldl ConfigOpt.apply c₁ = post.foldl ConfigOpt.apply c₂ := by
  induction post with
  | nil =>
    rintro c₁ c₂ hwl ⟨v, hv⟩
    exact absurd hv (List.not_mem_nil _)
  | cons o rest ih =>
    rintro c₁ c₂ hwl ⟨v, hv⟩
    cases o with
    | whitelisted codes =>
      simp only [List.foldl_cons, ConfigOpt.apply, WithWhitelistedCountries]
      rw [hwl]
    | blacklisted codes =>
      simp only [List.foldl_cons, ConfigOpt.apply, WithBlacklistedCountries]
      refine ih _ _ rfl ?_
      rcases List.mem_cons.1 hv with h | h
      · exact absurd h (by simp)
      · exact ⟨v, h⟩
    | other =>
      simp only [List.foldl_cons, ConfigOpt.apply]
      refine ih _ _ hwl ?_
      rcases List.mem_cons.1 hv with h | h
      · exact absurd h (by simp)
      · exact ⟨v, h⟩

/-- C7: when both list types occur, the later one wins.  The codes of a
whitelist option followed (anywhere later) by a blacklist option have
no effect on the constructed filter, and symmetrically; and a sequence
ending in a blacklist option never builds a whitelist filter. -/
theorem C7_last_list_type_wins (pre post : List ConfigOpt)
    (w w' : List GoStr) :
    ((∃ b, ConfigOpt.blacklisted b ∈ post) →
      New (pre ++ ConfigOpt.whitelisted w :: post) =
      New (pre ++ ConfigOpt.whitelisted w' :: post)) ∧
    ((∃ v, ConfigOpt.whitelisted v ∈ post) →
      New (pre ++ ConfigOpt.blacklisted w :: post) =
      New (pre ++ ConfigOpt.blacklisted w' :: post)) ∧
    (New (pre ++ [ConfigOpt.blacklisted w])).isWhitelist = false := by
  refine ⟨?_, ?_, ?_⟩
  · intro hex
    have hfold :
        (pre ++ ConfigOpt.whitelisted w :: post).foldl ConfigOpt.apply
          defaultConfig =
        (pre ++ ConfigOpt.whitelisted w' :: post).foldl ConfigOpt.apply
          defaultConfig := by
      rw [List.foldl_append, List.foldl_append, List.foldl_cons,
        List.foldl_cons]
      exact foldl_eq_of_blacklisted_mem post _ _ rfl hex
    unfold New
    rw [hfold]
  · intro hex
    have hfold :
        (pre ++ ConfigOpt.blacklisted w :: post).foldl ConfigOpt.apply
          defaultConfig =
        (pre ++ ConfigOpt.blacklisted w' :: post).foldl ConfigOpt.apply
          defaultConfig := by
      rw [List.foldl_append, List.foldl_append, List.foldl_cons,
        List.foldl_cons]
      exact foldl_eq_of_whitelisted_mem post _ _ rfl hex
    unfold New
    rw [hfold]
  · rw [New_eq, List.foldl_append, List.foldl_cons, List.foldl_nil]
    have hwl :
        (ConfigOpt.apply (pre.foldl ConfigOpt.apply defaultConfig)
          (ConfigOpt.blacklisted w)).whitelist = [] := rfl
    rw [hwl, normalizeCodes_nil]
    simp

/-- C7 witness: whitelist CH then blacklist US equals whitelist empty
then blacklist US — the earlier whitelist codes are irrelevant. -/
theorem C7_last_list_type_wins_witness :
    New [ConfigOpt.whitelisted [[67, 72]],
         ConfigOpt.blacklisted [[85, 83]]] =
    New [ConfigOpt.whitelisted [],
         ConfigOpt.blacklisted [[85, 83]]] :=
  (C7_last_list_type_wins [] [ConfigOpt.blacklisted [[85, 83]]]
    [[67, 72]] []).1 ⟨[[85, 83]], by decide⟩

/-- C8: Allowed returns an error exactly when the reader's lookup
itself fails, and propagates that error; a successful lookup with an
empty country code (an IP absent from the database) yields no error
and the empty code. -/
theorem C8_error_iff (f : IPFilter) (r : Reader) (ip : IP) :
    (∀ e, (IPFilter.Allowed r f ip = .error e ↔ r ip = .error e)) ∧
    (r ip = .ok [] →
      IPFilter.Allowed r f ip = .ok (!f.isWhitelist, [])) := by
  constructor
  · intro e
    unfold IPFilter.Allowed IPFilter.allowed
    cases hr : r ip with
    | error e' => simp
    | ok code =>
      by_cases h : code.length = 0 <;> simp [h]
  · exact Allowed_empty_code f r ip

/-- C8 witness: a failing reader's error is surfaced unchanged; a
reader that finds no country yields an allow decision with the empty
code and no error on the unrestricted filter. -/
theorem C8_error_iff_witness :
    IPFilter.Allowed (fun _ => .error "mmdb corrupt")
      { countryCodes := ∅, isWhitelist := false } 0 = .error "mmdb corrupt" ∧
    IPFilter.Allowed (fun _ => .ok [])
      { countryCodes := ∅, isWhitelist := false } 0 = .ok (true, []) := by
  constructor
  · exact ((C8_error_iff { countryCodes := ∅, isWhitelist := false }
      (fun _ => .error "mmdb corrupt") 0).1 "mmdb corrupt").2 rfl
  · have := (C8_error_iff { countryCodes := ∅, isWhitelist := false }
      (fun _ => .ok []) 0).2 rfl
    rw [this]
    rfl

/-- C10: if the last option is a whitelist option but the accumulated
whitelist normalizes to the empty set (for example only empty-string
codes were configured), New falls through to the blacklist branch with
an empty set, and the filter allows every IP whose lookup succeeds. -/
theorem C10_empty_whitelist_allows_all (pre : List ConfigOpt)
    (w : List GoStr) (r : Reader) (ip : IP) (c : GoStr)
    (hw : normalizeCodes
      (((pre ++ [ConfigOpt.whitelisted w]).foldl ConfigOpt.apply
        defaultConfig).whitelist) = ∅)
    (hr : r ip = .ok c) :
    New (pre ++ [ConfigOpt.whitelisted w]) =
      { countryCodes := ∅, isWhitelist := false } ∧
    IPFilter.Allowed r (New (pre ++ [ConfigOpt.whitelisted w])) ip =
      .ok (true, c) := by
  have hbl :
      ((pre ++ [ConfigOpt.whitelisted w]).foldl ConfigOpt.apply
        defaultConfig).blacklist = [] := by
    rw [List.foldl_append, List.foldl_cons, List.foldl_nil]
    rfl
  have hnew : New (pre ++ [ConfigOpt.whitelisted w]) =
      { countryCodes := ∅, isWhitelist := false } := by
    rw [New_eq, hw, hbl, normalizeCodes_nil]
    simp
  refine ⟨hnew, ?_⟩
  rw [hnew]
  by_cases hc : c = []
  · subst hc
    exact Allowed_empty_code _ r ip hr
  · rw [Allowed_ok _ r ip c hr hc]
    simp [countryCodes.has]

/-- C10 witness: the whitelist option whose only code is the empty
string builds the allow-all filter, and a lookup resolving to US is
allowed. -/
theorem C10_empty_whitelist_allows_all_witness :
    New [ConfigOpt.whitelisted [[]]] =
      { countryCodes := ∅, isWhitelist := false } ∧
    IPFilter.Allowed (fun _ => .ok [85, 83])
      (New [ConfigOpt.whitelisted [[]]]) 0 = .ok (true, [85, 83]) := by
  have := C10_empty_whitelist_allows_all [] [[]]
    (fun _ => .ok [85, 83]) 0 [85, 83] (by decide) rfl
  simpa using this
